import Mathlib

/-!
Verification development for the hbuild incremental native build engine
(`src/main.rs`).  The definitions below are a shallow embedding of the
program: file paths are strings, modification times are naturals, the
filesystem is a map from paths to optional modification times (`none`
models a path that cannot be stat'd / does not exist), and the recursive
staleness check is made total with an explicit fuel argument, so that a
run that exhausts every fuel bound models non-termination of the source
function.
-/

/-- Filesystem model: `mtime p = none` means `p` cannot be stat'd (the
program treats "cannot stat" and "does not exist" through the same
`metadata()` / `exists()` queries). -/
structure FS where
  mtime : String → Option Nat

/-- `Path::exists` in the source: a path exists iff it can be stat'd. -/
def FS.pathExists (fs : FS) (p : String) : Bool :=
  (fs.mtime p).isSome

/-- Association-list lookup, the model of `HashMap::get`. -/
def alookup {α : Type} : List (String × α) → String → Option α
  | [], _ => none
  | (k, v) :: rest, f => if k = f then some v else alookup rest f

/-- The dependency graph `deps: HashMap<PathBuf, HashSet<PathBuf>>`. -/
abbrev DepGraph := List (String × List String)

/-- The staleness cache `cache: HashMap<PathBuf, bool>`; insertion is
modelled by consing (the most recent binding shadows older ones, which
matches `HashMap::insert` overwriting). -/
abbrev Cache := List (String × Bool)

/-- `deps.get(file)`: absence of a graph entry means no dependencies
(the source skips the loop entirely in that case). -/
def depsOf (deps : DepGraph) (f : String) : List String :=
  (alookup deps f).getD []

/-- The boolean computed at `main.rs:339`:
`!obj.exists() || file_mtime > obj_mtime`. -/
def staleNow (fs : FS) (obj : String) (objMtime fileMtime : Nat) : Bool :=
  (!fs.pathExists obj) || decide (objMtime < fileMtime)

/-- One step of the dependency loop at `main.rs:348-355`: the source
`for` loop returns from the whole function on the first stale
dependency; the fold freezes the accumulator once a `true` (or a
fuel-exhaustion `none`) has been produced, so no later dependency is
visited, exactly like the early `return`. -/
def depFoldStep (rec : String → Cache → Option (Bool × Cache))
    (acc : Option (Bool × Cache)) (dep : String) : Option (Bool × Cache) :=
  match acc with
  | none => none
  | some (true, c) => some (true, c)
  | some (false, c) => rec dep c

/-- Shallow embedding of `needs_recompile` (`main.rs:325-358`), made
total by fuel: `none` means the recursion did not finish within `fuel`
nested calls.  The cache threading, the cache-lookup short-circuit, the
"cannot stat ⇒ true (without caching)" branch, the base staleness test,
and the cache writes (`true` after the base test or a stale dependency,
`false` after all dependencies were visited) follow the source line by
line.  Note that, as in the source, no cache entry for `file` is
written before descending into its dependencies. -/
def needsRecompile (fs : FS) (deps : DepGraph) (obj : String) (objMtime : Nat) :
    Nat → String → Cache → Option (Bool × Cache)
  | 0, _, _ => none
  | fuel + 1, file, cache =>
    match alookup cache file with
    | some res => some (res, cache)
    | none =>
      match fs.mtime file with
      | none => some (true, cache)
      | some fileMtime =>
        if staleNow fs obj objMtime fileMtime then
          some (true, (file, true) :: cache)
        else
          match (depsOf deps file).foldl
              (depFoldStep (fun dep c => needsRecompile fs deps obj objMtime fuel dep c))
              (some (false, cache)) with
          | none => none
          | some (true, c) => some (true, (file, true) :: c)
          | some (false, c) => some (false, (file, false) :: c)

/-- The staleness rule as specified: a file is stale when its base test
fires (cannot stat, object missing, or file newer than object), or when
some file in its dependency set is stale by the same rule. -/
inductive IsStale (fs : FS) (deps : DepGraph) (obj : String) (objMtime : Nat) :
    String → Prop
  | base {f : String} :
      (match fs.mtime f with
       | none => true
       | some fm => staleNow fs obj objMtime fm) = true →
      IsStale fs deps obj objMtime f
  | dep {f d : String} :
      d ∈ depsOf deps f → IsStale fs deps obj objMtime d →
      IsStale fs deps obj objMtime f

/-- The base test of `IsStale`, as a function. -/
def baseStale (fs : FS) (obj : String) (objMtime : Nat) (f : String) : Bool :=
  match fs.mtime f with
  | none => true
  | some fm => staleNow fs obj objMtime fm

/-- A concrete filesystem for the cyclic-include scenario: headers
`x.h` and `y.h` both stat to mtime 0, the object `obj.o` exists. -/
def cycFS : FS :=
  ⟨fun f => if f = "x.h" ∨ f = "y.h" ∨ f = "obj.o" then some 0 else none⟩

/-- The cyclic dependency graph: `x.h` includes `y.h` and `y.h`
includes `x.h`. -/
def cycDeps : DepGraph := [("x.h", ["y.h"]), ("y.h", ["x.h"])]

/-- A cache is correct when every boolean it stores agrees with the
staleness rule. -/
def CacheOK (fs : FS) (deps : DepGraph) (obj : String) (objMtime : Nat)
    (c : Cache) : Prop :=
  ∀ f b, alookup c f = some b → (b = true ↔ IsStale fs deps obj objMtime f)

/-- Split a character list at a separator; always returns at least one
(possibly empty) group. -/
def splitOnChar (sep : Char) : List Char → List (List Char)
  | [] => [[]]
  | c :: rest =>
    match splitOnChar sep rest with
    | [] => [[c]]
    | g :: gs => if c = sep then [] :: g :: gs else (c :: g) :: gs

/-- Join character groups with a separator (inverse of
`splitOnChar`). -/
def joinChar (sep : Char) : List (List Char) → List Char
  | [] => []
  | [g] => g
  | g :: gs => g ++ sep :: joinChar sep gs

/-- `Path::file_name` for the paths this program builds: the component
after the last `/`. -/
def fileName (p : String) : String :=
  String.mk ((splitOnChar '/' p.data).getLastD [])

/-- `Path::extension`: the part of the file name after the last dot;
`none` when the name has no dot or when the only dot is leading. -/
def extension (p : String) : Option String :=
  let parts := splitOnChar '.' (fileName p).data
  if parts.length <= 1 then none
  else if parts.length = 2 ∧ parts.headD [] = [] then none
  else some (String.mk (parts.getLastD []))

/-- The header test at `main.rs:447`:
`dep.extension().map_or(false, |e| e == "h" || e == "hpp")`. -/
def isHeader (p : String) : Bool :=
  match extension p with
  | some e => e == "h" || e == "hpp"
  | none => false

/-- `Path::with_extension("o")`: replace the extension (drop the old
one, dot included) or append `.o` when there is none. -/
def withExtO (name : String) : String :=
  match extension name with
  | some _ => String.mk (joinChar '.' (splitOnChar '.' name.data).dropLast) ++ ".o"
  | none => name ++ ".o"

/-- The object artifact path computed at `main.rs:458` (and again at
474, 521 and 530):
`build_dir.join(src.file_name().unwrap()).with_extension("o")`. -/
def objPath (buildDir src : String) : String :=
  buildDir ++ "/" ++ withExtO (fileName src)

/-- The source scan at `main.rs:430-435`: every glob match of every
pattern is pushed, in order, with no deduplication.  `globFn` is the
environment's answer to `glob(path.join(pattern))`. -/
def locateSources (globFn : String → List String) (patterns : List String) :
    List String :=
  patterns.foldl (fun acc p => acc ++ globFn p) []

/-- One toolchain dependency query (`get_dependencies`, a
`compiler -MM` run), tagged with whether it was made for a source file
of the scan loop or for a header discovered in a dependency set. -/
inductive QueryEvent where
  | src (f : String)
  | hdr (f : String)
deriving DecidableEq

/-- The inner loop of the graph build (`main.rs:445-451`): a
dependency that is not yet a key of the graph and whose extension is
`h`/`hpp` is queried and stored at once (so a later occurrence finds it
as a key); every other dependency is skipped. -/
def hdrScanStep (depQ : String → List String)
    (acc : DepGraph × List QueryEvent) (dep : String) :
    DepGraph × List QueryEvent :=
  if alookup acc.1 dep = none ∧ isHeader dep = true then
    ((dep, depQ dep) :: acc.1, acc.2 ++ [QueryEvent.hdr dep])
  else acc

/-- The body of the graph-building loop at `main.rs:443-453` for one
source: query the source, run the header scan over its dependency set,
and finally store the source's own entry.  `depQ` is the environment's
answer to `get_dependencies`. -/
def processSrc (depQ : String → List String)
    (st : DepGraph × List QueryEvent) (s : String) :
    DepGraph × List QueryEvent :=
  let srcDeps := depQ s
  let st1 := (st.1, st.2 ++ [QueryEvent.src s])
  let st2 := srcDeps.foldl (hdrScanStep depQ) st1
  ((s, srcDeps) :: st2.1, st2.2)

/-- The dependency-graph build at `main.rs:442-453`, with its trace of
toolchain queries. -/
def buildGraph (depQ : String → List String) (sources : List String) :
    DepGraph × List QueryEvent :=
  sources.foldl (processSrc depQ) ([], [])

/-- The source-file queries of a trace. -/
def srcEvents : List QueryEvent → List String
  | [] => []
  | QueryEvent.src f :: rest => f :: srcEvents rest
  | QueryEvent.hdr _ :: rest => srcEvents rest

/-- The header queries of a trace. -/
def hdrEvents : List QueryEvent → List String
  | [] => []
  | QueryEvent.src _ :: rest => hdrEvents rest
  | QueryEvent.hdr f :: rest => f :: hdrEvents rest

/-- The relink decision at `main.rs:517-527`: relink when the target is
missing or something was recompiled this run; otherwise compare every
existing object of the source list against the target's mtime (the
`none` branch for the target is unreachable, since the target exists on
that path). -/
def needLink (fs : FS) (target : String) (toCompile : List String)
    (sources : List String) (buildDir : String) : Bool :=
  if (!fs.pathExists target) || (!toCompile.isEmpty) then true
  else
    match fs.mtime target with
    | none => false
    | some exeMtime =>
      sources.any fun s =>
        fs.pathExists (objPath buildDir s) &&
          match fs.mtime (objPath buildDir s) with
          | some om => decide (exeMtime < om)
          | none => false

/-- The external process the link/archive stage decides to run. -/
inductive LinkAction where
  | archive (target : String) (objs : List String)
  | link (args : List String)
deriving DecidableEq

/-- The branch at `main.rs:529-550`: `ar rcs` over all objects for
`static` (early return, the linker line is never reached), otherwise
the compiler as linker with `-shared` appended exactly for `shared`.
`linkBase` stands for the argument list assembled by the `format!` at
line 547, before the conditional push of `-shared`. -/
def linkInvocation (buildType target : String) (objs : List String)
    (linkBase : List String) : LinkAction :=
  if buildType = "static" then LinkAction.archive target objs
  else LinkAction.link
    (linkBase ++ if buildType = "shared" then ["-shared"] else [])

/-- The whole link/archive stage (`main.rs:508-577`): no linker or
archiver process is spawned unless `needLink` holds. -/
def linkStage (fs : FS) (target : String) (toCompile : List String)
    (sources : List String) (buildDir buildType : String)
    (linkBase : List String) : Option LinkAction :=
  if needLink fs target toCompile sources buildDir then
    some (linkInvocation buildType target
      (sources.map (objPath buildDir)) linkBase)
  else none

/-- The spawn/register/wait/deregister sequence shared by the compile
task (`main.rs:480-504`) and the link step (`main.rs:553-576`): the
child pid is pushed right after spawn, the thread waits, and only when
the exit status is a success is the pid removed again
(`guards.retain`); a failing status returns the error before the
removal runs.  The result is (registry while waiting, step outcome,
registry after the step). -/
def spawnWaitTracked (registry : List Nat) (pid : Nat) (success : Bool)
    (failMsg : String) : List Nat × Except String Unit × List Nat :=
  let during := registry ++ [pid]
  if success then (during, Except.ok (), during.filter (fun p => p != pid))
  else (during, Except.error failMsg, during)

/-- `compile_c_cpp` (`main.rs:381-579`) as the orchestrator sees it:
the function unconditionally calls
`rayon::ThreadPoolBuilder::build_global()` (line 427) â a call that,
per rayon's contract, fails when the global pool was already
initialized â and `?`-propagates its error; afterwards the rest of the
pipeline (scan, graph, compile, link) runs, abstracted here as its
outcome `pipeline`.  Returns the step result and the new pool state. -/
def compileCCpp (poolBuilt : Bool) (pipeline : Except String Unit) :
    Except String Unit × Bool :=
  if poolBuilt then
    (Except.error "The global thread pool has already been initialized.", true)
  else (pipeline, true)

/-- The languages `make` dispatches to an external toolchain command. -/
def externalLangs : List String :=
  ["rust", "odin", "python", "crystal", "go", "vala"]

/-- What one iteration of the language loop observes. -/
inductive StepOutcome where
  | fatal (e : String)
  | status (r : Except String Nat)

/-- One iteration of the loop at `main.rs:587-610`: for `c`/`c++` the
native engine runs and its error is `?`-propagated out of `make`
(`fatal`); for the listed external languages the command's
`io::Result<ExitStatus>` (modelled by `run lang`: `Except.error` = the
command could not be run, `Except.ok code` = its exit status) becomes
`build_result`; any other language is an unsupported no-op reported
with status 0. -/
def makeStep (run : String → Except String Nat)
    (pipeline : Except String Unit) (pool : Bool) (lang : String) :
    StepOutcome × Bool :=
  if lang = "c" ∨ lang = "c++" then
    match compileCCpp pool pipeline with
    | (Except.ok _, p) => (StepOutcome.status (Except.ok 0), p)
    | (Except.error e, p) => (StepOutcome.fatal e, p)
  else if lang ∈ externalLangs then (StepOutcome.status (run lang), pool)
  else (StepOutcome.status (Except.ok 0), pool)

/-- The error lines the loop prints for one language
(`main.rs:611-617`). -/
def failLogs (lang : String) : Except String Nat → List String
  | Except.ok c => if c = 0 then [] else ["Build failed for " ++ lang]
  | Except.error _ => ["Failed to run build command for " ++ lang]

/-- The language loop of `make` (`main.rs:587-618`): a fatal native
error aborts the whole command (the `?` at line 592); any other failure
is logged and the loop continues, and `make` finally returns success
whatever the logs contain. -/
def makeLoop (run : String → Except String Nat)
    (pipeline : Except String Unit) :
    Bool → List String → Except String (List String)
  | _, [] => Except.ok []
  | pool, lang :: rest =>
    match makeStep run pipeline pool lang with
    | (StepOutcome.fatal e, _) => Except.error e
    | (StepOutcome.status r, p) =>
      match makeLoop run pipeline p rest with
      | Except.ok logs => Except.ok (failLogs lang r ++ logs)
      | Except.error e => Except.error e

/-- The status an external-toolchain language reports (what
`build_result` holds for it). -/
def externalResult (run : String → Except String Nat) (lang : String) :
    Except String Nat :=
  if lang ∈ externalLangs then run lang else Except.ok 0

/-- Witness filesystem: `a.c` (mtime 9) is newer than its object
`build/a.o` (mtime 5). -/
def fsW : FS :=
  ⟨fun f => if f = "a.c" then some 9
    else if f = "build/a.o" then some 5 else none⟩

/-- Witness filesystem for the link stage: target `app` (mtime 10) is
newer than the only object `build/a.o` (mtime 5). -/
def fsL : FS :=
  ⟨fun f => if f = "app" then some 10
    else if f = "build/a.o" then some 5 else none⟩

/-- Overlapping glob patterns: `src/a.c` matches both. -/
def cexGlob : String → List String := fun p =>
  if p = "src/*.c" then ["src/a.c", "src/b.c"]
  else if p = "src/a*.c" then ["src/a.c"]
  else []

/-- Toolchain answers in which `a.c` includes a header whose extension
is `hh`. -/
def hhDepQ : String → List String := fun f =>
  if f = "a.c" then ["util.hh"]
  else if f = "util.hh" then ["deep.h"]
  else []

/-- External-language results for the orchestrator examples: the `rust`
build exits with status 1, every other command with 0. -/
def runRustFails : String → Except String Nat := fun l =>
  if l = "rust" then Except.ok 1 else Except.ok 0

/-- Toolchain answers in which `a.c` includes the ordinary header
`u.h`. -/
def hDepQ : String → List String := fun f =>
  if f = "a.c" then ["u.h"] else []

/-- Invariant of the header scan: the headers queried so far are
pairwise distinct and all of them are keys of the graph. -/
def HdrInv (g : DepGraph) (evs : List QueryEvent) : Prop :=
  (hdrEvents evs).Nodup ∧ ∀ f ∈ hdrEvents evs, (alookup g f).isSome = true

/-- Every binding of the graph maps a file to its own query result
(both insertion sites store `depQ` of the key). -/
def GraphOK (depQ : String → List String) (g : DepGraph) : Prop :=
  ∀ k v, (k, v) ∈ g → v = depQ k

theorem isStale_elim {fs deps obj objMtime f}
    (h : IsStale fs deps obj objMtime f) :
    baseStale fs obj objMtime f = true ∨
      ∃ d, d ∈ depsOf deps f ∧ IsStale fs deps obj objMtime d := by
  cases h with
  | base h => exact Or.inl h
  | dep hd hs => exact Or.inr ⟨_, hd, hs⟩

theorem isStale_of_base {fs deps obj objMtime f}
    (h : baseStale fs obj objMtime f = true) : IsStale fs deps obj objMtime f :=
  IsStale.base h

theorem cyc_diverges (fuel : Nat) :
    needsRecompile cycFS cycDeps "obj.o" 10 fuel "x.h" [] = none ∧
    needsRecompile cycFS cycDeps "obj.o" 10 fuel "y.h" [] = none := by
  have e2x : cycFS.mtime "x.h" = some 0 := rfl
  have e2y : cycFS.mtime "y.h" = some 0 := rfl
  have e3 : staleNow cycFS "obj.o" 10 0 = false := rfl
  have e4x : depsOf cycDeps "x.h" = ["y.h"] := rfl
  have e4y : depsOf cycDeps "y.h" = ["x.h"] := rfl
  induction fuel with
  | zero => exact ⟨rfl, rfl⟩
  | succ n ih =>
    constructor
    · show needsRecompile cycFS cycDeps "obj.o" 10 (n + 1) "x.h" [] = none
      rw [needsRecompile]
      simp only [alookup, e2x, e3, e4x, List.foldl, depFoldStep, ih.2,
        Bool.false_eq_true, if_false]
    · show needsRecompile cycFS cycDeps "obj.o" 10 (n + 1) "y.h" [] = none
      rw [needsRecompile]
      simp only [alookup, e2y, e3, e4y, List.foldl, depFoldStep, ih.1,
        Bool.false_eq_true, if_false]

theorem depFold_none (rec : String → Cache → Option (Bool × Cache))
    (l : List String) : l.foldl (depFoldStep rec) none = none := by
  induction l with
  | nil => rfl
  | cons d rest ih => simpa [List.foldl, depFoldStep] using ih

theorem depFold_true (rec : String → Cache → Option (Bool × Cache))
    (l : List String) (c : Cache) :
    l.foldl (depFoldStep rec) (some (true, c)) = some (true, c) := by
  induction l with
  | nil => rfl
  | cons d rest ih => simpa [List.foldl, depFoldStep] using ih

theorem cacheOK_cons {fs deps obj objMtime c} {f : String} {b : Bool}
    (hc : CacheOK fs deps obj objMtime c)
    (hb : b = true ↔ IsStale fs deps obj objMtime f) :
    CacheOK fs deps obj objMtime ((f, b) :: c) := by
  intro f' b' h'
  by_cases hf : f = f'
  · subst hf
    simp only [alookup, if_pos rfl] at h'
    cases h'
    exact hb
  · simp only [alookup, if_neg hf] at h'
    exact hc f' b' h'

theorem baseStale_false_of_mtime {fs : FS} {obj : String} {objMtime fm : Nat}
    {f : String} (hm : fs.mtime f = some fm)
    (hs : staleNow fs obj objMtime fm = false) :
    baseStale fs obj objMtime f = false := by
  unfold baseStale
  rw [hm]
  exact hs

theorem depFold_sound (fs : FS) (deps : DepGraph) (obj : String) (objMtime : Nat)
    (rec : String → Cache → Option (Bool × Cache))
    (hrec : ∀ d c b c', CacheOK fs deps obj objMtime c → rec d c = some (b, c') →
      CacheOK fs deps obj objMtime c' ∧ (b = true ↔ IsStale fs deps obj objMtime d)) :
    ∀ (l : List String) (c : Cache), CacheOK fs deps obj objMtime c →
      ∀ b c', l.foldl (depFoldStep rec) (some (false, c)) = some (b, c') →
        CacheOK fs deps obj objMtime c' ∧
          (b = true → ∃ d, d ∈ l ∧ IsStale fs deps obj objMtime d) ∧
          (b = false → ∀ d, d ∈ l → ¬ IsStale fs deps obj objMtime d) := by
  intro l
  induction l with
  | nil =>
    intro c hc b c' h
    simp only [List.foldl, Option.some.injEq, Prod.mk.injEq] at h
    obtain ⟨hb, hcc⟩ := h
    subst hb; subst hcc
    refine ⟨hc, fun hbt => absurd hbt (by simp), fun _ d hd => absurd hd (by simp)⟩
  | cons d rest ih =>
    intro c hc b c' h
    simp only [List.foldl, depFoldStep] at h
    cases hd : rec d c with
    | none =>
      rw [hd, depFold_none] at h
      exact absurd h (by simp)
    | some p =>
      obtain ⟨bd, cd⟩ := p
      rw [hd] at h
      obtain ⟨hcd, hiff⟩ := hrec d c bd cd hc hd
      cases bd with
      | true =>
        rw [depFold_true] at h
        simp only [Option.some.injEq, Prod.mk.injEq] at h
        obtain ⟨hb, hcc⟩ := h
        subst hb; subst hcc
        have hsd : IsStale fs deps obj objMtime d := hiff.mp rfl
        exact ⟨hcd, fun _ => ⟨d, List.mem_cons_self d rest, hsd⟩,
          fun hbf => absurd hbf (by simp)⟩
      | false =>
        have hnd : ¬ IsStale fs deps obj objMtime d := fun hs => by
          have := hiff.mpr hs
          simp at this
        obtain ⟨hc', hbt, hbf⟩ := ih cd hcd b c' h
        refine ⟨hc', ?_, ?_⟩
        · intro hb
          obtain ⟨d', hd', hs'⟩ := hbt hb
          exact ⟨d', List.mem_cons_of_mem d hd', hs'⟩
        · intro hb d' hd'
          rcases List.mem_cons.mp hd' with hdd | hdr
          · subst hdd; exact hnd
          · exact hbf hb d' hdr

theorem needsRecompile_sound (fs : FS) (deps : DepGraph) (obj : String)
    (objMtime : Nat) :
    ∀ (fuel : Nat) (file : String) (cache : Cache) (b : Bool) (c' : Cache),
      CacheOK fs deps obj objMtime cache →
      needsRecompile fs deps obj objMtime fuel file cache = some (b, c') →
      CacheOK fs deps obj objMtime c' ∧
        (b = true ↔ IsStale fs deps obj objMtime file) := by
  intro fuel
  induction fuel with
  | zero =>
    intro file cache b c' hc h
    exact absurd h (by simp [needsRecompile])
  | succ n ih =>
    intro file cache b c' hc h
    rw [needsRecompile] at h
    split at h
    next res hcl =>
      simp only [Option.some.injEq, Prod.mk.injEq] at h
      obtain ⟨hb, hcc⟩ := h
      subst hb; subst hcc
      exact ⟨hc, hc file _ hcl⟩
    next hcl =>
      split at h
      next hm =>
        simp only [Option.some.injEq, Prod.mk.injEq] at h
        obtain ⟨hb, hcc⟩ := h
        subst hb; subst hcc
        have hst : IsStale fs deps obj objMtime file := IsStale.base (by rw [hm])
        exact ⟨hc, ⟨fun _ => hst, fun _ => rfl⟩⟩
      next fm hm =>
        split at h
        next hs =>
          simp only [Option.some.injEq, Prod.mk.injEq] at h
          obtain ⟨hb, hcc⟩ := h
          subst hb; subst hcc
          have hst : IsStale fs deps obj objMtime file :=
            IsStale.base (by rw [hm]; exact hs)
          exact ⟨cacheOK_cons hc ⟨fun _ => hst, fun _ => rfl⟩,
            ⟨fun _ => hst, fun _ => rfl⟩⟩
        next hs =>
          have hs' : staleNow fs obj objMtime fm = false := by
            revert hs; cases staleNow fs obj objMtime fm <;> simp
          split at h
          next hf => exact absurd h (by simp)
          next cf hf =>
            simp only [Option.some.injEq, Prod.mk.injEq] at h
            obtain ⟨hb, hcc⟩ := h
            subst hb; subst hcc
            obtain ⟨hcf, hbt, hbf⟩ := depFold_sound fs deps obj objMtime _
              (fun d c b c' hC hr => ih d c b c' hC hr)
              (depsOf deps file) cache hc _ cf hf
            obtain ⟨d, hd, hsd⟩ := hbt rfl
            have hst : IsStale fs deps obj objMtime file := IsStale.dep hd hsd
            exact ⟨cacheOK_cons hcf ⟨fun _ => hst, fun _ => rfl⟩,
              ⟨fun _ => hst, fun _ => rfl⟩⟩
          next cf hf =>
            simp only [Option.some.injEq, Prod.mk.injEq] at h
            obtain ⟨hb, hcc⟩ := h
            subst hb; subst hcc
            obtain ⟨hcf, hbt, hbf⟩ := depFold_sound fs deps obj objMtime _
              (fun d c b c' hC hr => ih d c b c' hC hr)
              (depsOf deps file) cache hc _ cf hf
            have hnot : ¬ IsStale fs deps obj objMtime file := by
              intro hst
              rcases isStale_elim hst with hbase | ⟨d, hd, hsd⟩
              · rw [baseStale_false_of_mtime hm hs'] at hbase
                simp at hbase
              · exact hbf rfl d hd hsd
            exact ⟨cacheOK_cons hcf
                ⟨fun hb => absurd hb (by simp), fun hst => absurd hst hnot⟩,
              ⟨fun hb => absurd hb (by simp), fun hst => absurd hst hnot⟩⟩

theorem baseStale_iff (fs : FS) (obj : String) (objMtime : Nat) (f : String) :
    baseStale fs obj objMtime f = true ↔
      fs.mtime f = none ∨ fs.pathExists obj = false ∨
        ∃ fm, fs.mtime f = some fm ∧ objMtime < fm := by
  unfold baseStale staleNow
  cases hm : fs.mtime f with
  | none => simp [hm]
  | some fm =>
    simp [hm, Bool.or_eq_true, Bool.not_eq_true', decide_eq_true_iff]

theorem isStale_unfold (fs : FS) (deps : DepGraph) (obj : String)
    (objMtime : Nat) (file : String) :
    IsStale fs deps obj objMtime file ↔
      fs.mtime file = none ∨ fs.pathExists obj = false ∨
        (∃ fm, fs.mtime file = some fm ∧ objMtime < fm) ∨
        (∃ d, d ∈ depsOf deps file ∧ IsStale fs deps obj objMtime d) := by
  constructor
  · intro h
    rcases isStale_elim h with hb | hd
    · rcases (baseStale_iff fs obj objMtime file).mp hb with h1 | h2 | h3
      · exact Or.inl h1
      · exact Or.inr (Or.inl h2)
      · exact Or.inr (Or.inr (Or.inl h3))
    · exact Or.inr (Or.inr (Or.inr hd))
  · intro h
    rcases h with h1 | h2 | h3 | ⟨d, hd, hs⟩
    · exact isStale_of_base ((baseStale_iff _ _ _ _).mpr (Or.inl h1))
    · exact isStale_of_base ((baseStale_iff _ _ _ _).mpr (Or.inr (Or.inl h2)))
    · exact isStale_of_base ((baseStale_iff _ _ _ _).mpr (Or.inr (Or.inr h3)))
    · exact IsStale.dep hd hs

/-- C1 (code bug): on the cyclic dependency graph in which `x.h`
includes `y.h` and `y.h` includes `x.h`, with both headers present and
not newer than the existing object, `needs_recompile` does not finish
at any recursion depth: contrary to the claim, no cache entry for the
visited file is written before descending into its dependencies, so the
call recurses between the two headers forever instead of terminating
with a boolean. -/
theorem c1_cycle_nontermination (fuel : Nat) :
    needsRecompile cycFS cycDeps "obj.o" 10 fuel "x.h" [] = none :=
  (cyc_diverges fuel).1

/-- C2 (code bug): the spawn/wait sequence shared by compilation and
linking registers the child pid right after spawn, but when the child
exits with a failing status the early error return skips the removal:
the pid is still in the registry after the process was reaped, for the
compile path and the link path alike, while the success path removes
it. -/
theorem c2_failed_exit_leaves_pid_registered :
    spawnWaitTracked [] 7 false "Compilation failed"
      = ([7], Except.error "Compilation failed", [7]) ∧
    spawnWaitTracked [] 9 false "Linking failed"
      = ([9], Except.error "Linking failed", [9]) ∧
    spawnWaitTracked [] 7 true "Compilation failed"
      = ([7], Except.ok (), []) :=
  ⟨rfl, rfl, rfl⟩

/-- C4: a `needs_recompile` run over the fresh cache its caller builds
returns `true` exactly when the file cannot be stat'd, or the object
file does not exist, or the file's mtime is strictly newer than the
object's, or some file of its dependency set is stale by the same rule;
in particular, whenever the object file does not exist the function
returns `true` (`some (b, c)` = the run terminates with answer `b` and
final cache `c`). -/
theorem c4_needs_recompile_iff (fs : FS) (deps : DepGraph) (obj : String)
    (objMtime : Nat) :
    (∀ fuel file b c,
      needsRecompile fs deps obj objMtime fuel file [] = some (b, c) →
      (b = true ↔ fs.mtime file = none ∨ fs.pathExists obj = false ∨
        (∃ fm, fs.mtime file = some fm ∧ objMtime < fm) ∨
        (∃ d, d ∈ depsOf deps file ∧ IsStale fs deps obj objMtime d))) ∧
    (∀ fuel file, fs.pathExists obj = false →
      ∃ c, needsRecompile fs deps obj objMtime (fuel + 1) file []
        = some (true, c)) := by
  constructor
  · intro fuel file b c h
    have hsound := (needsRecompile_sound fs deps obj objMtime fuel file [] b c
      (fun f b hb => by simp [alookup] at hb) h).2
    exact hsound.trans (isStale_unfold fs deps obj objMtime file)
  · intro fuel file hobj
    cases hm : fs.mtime file with
    | none =>
      refine ⟨[], ?_⟩
      rw [needsRecompile]
      simp [alookup, hm]
    | some fm =>
      refine ⟨[(file, true)], ?_⟩
      rw [needsRecompile]
      simp [alookup, hm, staleNow, hobj]

/-- Witness for C4 at a concrete input: `a.c` (mtime 9) with object
`build/a.o` (mtime 5) and no dependencies evaluates to `true`, and with
a missing object `missing.o` the function returns `true` as well. -/
theorem c4_witness :
    (true = true ↔ fsW.mtime "a.c" = none ∨ fsW.pathExists "build/a.o" = false ∨
      (∃ fm, fsW.mtime "a.c" = some fm ∧ 5 < fm) ∨
      (∃ d, d ∈ depsOf ([] : DepGraph) "a.c" ∧ IsStale fsW [] "build/a.o" 5 d)) ∧
    (∃ c, needsRecompile fsW [] "missing.o" 5 (0 + 1) "a.c" []
      = some (true, c)) :=
  ⟨(c4_needs_recompile_iff fsW [] "build/a.o" 5).1 1 "a.c" true [("a.c", true)]
      (by decide),
   (c4_needs_recompile_iff fsW [] "missing.o" 5).2 0 "a.c" (by decide)⟩

/-- C3 counterexample: with declared languages `["c", "go"]` and a
failed C compile, the `?` at `main.rs:592` propagates the error out of
`make`: `go` is never processed and the overall build command exits
with an error instead of success. -/
theorem c3_native_failure_aborts_make :
    makeLoop (fun _ => Except.ok 0) (Except.error "Compilation failed") false
      ["c", "go"] = Except.error "Compilation failed" := rfl

/-- C3 (amended): for every language list without a `c`/`c++` entry, a
failed language is merely logged — the loop reaches every language and
the overall command exits successfully whatever statuses the external
toolchains report; an error of the native C/C++ pipeline, by contrast,
aborts the whole command (see the counterexample). -/
theorem c3_external_failures_do_not_abort
    (run : String → Except String Nat) (pipeline : Except String Unit)
    (pool : Bool) (langs : List String)
    (h : ∀ l ∈ langs, ¬(l = "c" ∨ l = "c++")) :
    makeLoop run pipeline pool langs =
      Except.ok (langs.flatMap fun l => failLogs l (externalResult run l)) := by
  induction langs generalizing pool with
  | nil => rfl
  | cons lang rest ih =>
    have hl := h lang (List.mem_cons_self _ _)
    have hrest : ∀ l ∈ rest, ¬(l = "c" ∨ l = "c++") :=
      fun l hm => h l (List.mem_cons_of_mem _ hm)
    rw [List.flatMap_cons]
    by_cases he : lang ∈ externalLangs
    · simp only [makeLoop, makeStep, if_neg hl, if_pos he, ih pool hrest,
        externalResult]
    · simp only [makeLoop, makeStep, if_neg hl, if_neg he, ih pool hrest,
        externalResult]

/-- Witness for C3 (amended) at the spec's own example: languages
`["rust", "bogus-lang"]` with a failing `rust` build — the failure is
logged, the unknown language is skipped, and the command succeeds. -/
theorem c3_witness :
    makeLoop runRustFails (Except.ok ()) false ["rust", "bogus-lang"] =
      Except.ok ["Build failed for rust"] := by
  rw [c3_external_failures_do_not_abort runRustFails (Except.ok ()) false
    ["rust", "bogus-lang"] (by decide)]
  rfl

/-- C5: the link/archive stage relinks iff the target artifact is
missing, or at least one source was recompiled this run (`toCompile` is
the stale set, all of whose members were just compiled), or some
existing object file of the source list is strictly newer than the
target; and when none of these holds no linker or archiver process is
invoked at all. -/
theorem c5_relink_iff (fs : FS) (target : String) (toCompile : List String)
    (sources : List String) (buildDir buildType : String)
    (linkBase : List String) :
    (needLink fs target toCompile sources buildDir = true ↔
      fs.pathExists target = false ∨ toCompile ≠ [] ∨
        ∃ s, s ∈ sources ∧ fs.pathExists (objPath buildDir s) = true ∧
          ∃ tm om, fs.mtime target = some tm ∧
            fs.mtime (objPath buildDir s) = some om ∧ tm < om) ∧
    (needLink fs target toCompile sources buildDir = false →
      linkStage fs target toCompile sources buildDir buildType linkBase
        = none) := by
  constructor
  · unfold needLink
    split
    next hcond =>
      simp only [Bool.or_eq_true, Bool.not_eq_true', List.isEmpty_eq_false]
        at hcond
      constructor
      · intro _
        rcases hcond with h1 | h2
        · exact Or.inl h1
        · exact Or.inr (Or.inl h2)
      · intro _; rfl
    next hcond =>
      simp only [Bool.or_eq_true, Bool.not_eq_true', List.isEmpty_eq_false,
        not_or] at hcond
      obtain ⟨ht, htc⟩ := hcond
      have ht' : fs.pathExists target = true := by
        revert ht; cases fs.pathExists target <;> simp
      have htc' : toCompile = [] := by
        by_contra hne
        exact htc hne
      obtain ⟨tm, htm⟩ := Option.isSome_iff_exists.mp ht'
      rw [htm]
      rw [List.any_eq_true]
      constructor
      · rintro ⟨s, hs, hpred⟩
        rw [Bool.and_eq_true] at hpred
        obtain ⟨hex, hmatch⟩ := hpred
        cases hom : fs.mtime (objPath buildDir s) with
        | none => rw [hom] at hmatch; exact absurd hmatch (by simp)
        | some om =>
          rw [hom] at hmatch
          have hlt : tm < om := of_decide_eq_true hmatch
          exact Or.inr (Or.inr ⟨s, hs, hex, tm, om, rfl, hom, hlt⟩)
      · intro hcases
        rcases hcases with h1 | h2 | ⟨s, hs, hex, tm', om, htm', hom, hlt⟩
        · rw [ht'] at h1; exact absurd h1 (by simp)
        · exact absurd htc' h2
        · refine ⟨s, hs, ?_⟩
          rw [Bool.and_eq_true]
          refine ⟨hex, ?_⟩
          rw [hom]
          injection htm' with htmeq
          subst htmeq
          exact decide_eq_true hlt
  · intro h
    unfold linkStage
    rw [h]
    simp

/-- Witness for C5 at a concrete input: target `app` (mtime 10) exists,
nothing was recompiled, and the only object `build/a.o` (mtime 5) is
older — no linker or archiver is invoked. -/
theorem c5_witness :
    linkStage fsL "app" [] ["a.c"] "build" "executable" [] = none :=
  (c5_relink_iff fsL "app" [] ["a.c"] "build" "executable" []).2 (by decide)

/-- C6: with `build_type = "static"` and relinking needed, the stage
invokes the platform archiver over the object files of all sources and
never the compiler-as-linker; on the linker path the `-shared` flag is
appended exactly when `build_type = "shared"`. -/
theorem c6_static_uses_archiver (fs : FS) (target : String)
    (toCompile : List String) (sources : List String) (buildDir : String)
    (linkBase : List String) :
    (needLink fs target toCompile sources buildDir = true →
      linkStage fs target toCompile sources buildDir "static" linkBase =
        some (LinkAction.archive target (sources.map (objPath buildDir)))) ∧
    (∀ args, linkStage fs target toCompile sources buildDir "static" linkBase ≠
      some (LinkAction.link args)) ∧
    (∀ buildType,
      linkInvocation buildType target (sources.map (objPath buildDir)) linkBase
          = LinkAction.link (linkBase ++ ["-shared"]) ↔
        buildType = "shared") := by
  refine ⟨?_, ?_, ?_⟩
  · intro h
    simp [linkStage, h, linkInvocation]
  · intro args
    unfold linkStage
    split
    · simp [linkInvocation]
    · simp
  · intro buildType
    unfold linkInvocation
    by_cases hst : buildType = "static"
    · subst hst
      simp
    · rw [if_neg hst]
      by_cases hsh : buildType = "shared"
      · subst hsh
        simp
      · rw [if_neg hsh]
        simp [hsh]

/-- Witness for C6 at a concrete input: a static build whose stale set
is nonempty archives `build/a.o` into `app.a`; no linker runs. -/
theorem c6_witness :
    linkStage fsW "app.a" ["a.c"] ["a.c"] "build" "static" [] =
      some (LinkAction.archive "app.a" ["build/a.o"]) ∧
    (∀ args, linkStage fsW "app.a" ["a.c"] ["a.c"] "build" "static" [] ≠
      some (LinkAction.link args)) :=
  ⟨((c6_static_uses_archiver fsW "app.a" ["a.c"] ["a.c"] "build" []).1
      (by decide)).trans (by decide),
   (c6_static_uses_archiver fsW "app.a" ["a.c"] ["a.c"] "build" []).2.1⟩

/-- C9: the object artifact path depends on the source's file name
only, so two distinct source paths with the same file name are compiled
to one and the same object file `buildDir/<basename>.o` (the `-o`
argument at `main.rs:475` and the collected link objects at 530). -/
theorem c9_obj_path_collision (buildDir s1 s2 : String)
    (hne : s1 ≠ s2) (hname : fileName s1 = fileName s2) :
    objPath buildDir s1 = objPath buildDir s2 := by
  unfold objPath
  rw [hname]

/-- Witness for C9: `a/util.c` and `b/util.c` share the object path
(`build/util.o`). -/
theorem c9_witness :
    objPath "build" "a/util.c" = objPath "build" "b/util.c" ∧
    objPath "build" "a/util.c" = "build/util.o" :=
  ⟨c9_obj_path_collision "build" "a/util.c" "b/util.c" (by decide) (by decide),
   by decide⟩

/-- C10: `compile_c_cpp` builds the global worker pool unconditionally
on every call and propagates the failure, so a second native build step
in one program run always fails: with both `c` and `c++` declared,
`make` aborts with the pool error even though the second pipeline has
nothing to compile, and any call with the pool already built errors
regardless of the pipeline. -/
theorem c10_second_native_build_fails :
    (∀ run : String → Except String Nat,
      makeLoop run (Except.ok ()) false ["c", "c++"] =
        Except.error "The global thread pool has already been initialized.") ∧
    (∀ pipeline, compileCCpp true pipeline =
      (Except.error "The global thread pool has already been initialized.",
        true)) :=
  ⟨fun _ => rfl, fun _ => rfl⟩

theorem srcEvents_append (a b : List QueryEvent) :
    srcEvents (a ++ b) = srcEvents a ++ srcEvents b := by
  induction a with
  | nil => rfl
  | cons e rest ih => cases e <;> simp [srcEvents, ih]

theorem hdrEvents_append (a b : List QueryEvent) :
    hdrEvents (a ++ b) = hdrEvents a ++ hdrEvents b := by
  induction a with
  | nil => rfl
  | cons e rest ih => cases e <;> simp [hdrEvents, ih]

theorem hdrScan_srcEvents (depQ : String → List String) (l : List String) :
    ∀ acc : DepGraph × List QueryEvent,
      srcEvents ((l.foldl (hdrScanStep depQ) acc).2) = srcEvents acc.2 := by
  induction l with
  | nil => intro acc; rfl
  | cons d rest ih =>
    intro acc
    rw [List.foldl_cons, ih]
    unfold hdrScanStep
    split
    · simp [srcEvents_append, srcEvents]
    · rfl

theorem processSrc_srcEvents (depQ : String → List String)
    (st : DepGraph × List QueryEvent) (s : String) :
    srcEvents ((processSrc depQ st s).2) = srcEvents st.2 ++ [s] := by
  simp only [processSrc]
  rw [hdrScan_srcEvents]
  simp [srcEvents_append, srcEvents]

theorem buildGraph_srcEvents (depQ : String → List String)
    (sources : List String) :
    srcEvents (buildGraph depQ sources).2 = sources := by
  have main : ∀ (rest : List String) (acc : DepGraph × List QueryEvent),
      srcEvents ((rest.foldl (processSrc depQ) acc).2)
        = srcEvents acc.2 ++ rest := by
    intro rest
    induction rest with
    | nil => intro acc; simp
    | cons s rest ih =>
      intro acc
      rw [List.foldl_cons, ih, processSrc_srcEvents]
      simp
  have h := main sources ([], [])
  simpa [buildGraph, srcEvents] using h

theorem alookup_cons_isSome {α : Type} {g : List (String × α)} {k : String}
    (a : String) (b : α) (h : (alookup g k).isSome = true) :
    (alookup ((a, b) :: g) k).isSome = true := by
  simp only [alookup]
  split
  · rfl
  · exact h

theorem hdrScanStep_mono (depQ : String → List String)
    (acc : DepGraph × List QueryEvent) (dep k : String)
    (h : (alookup acc.1 k).isSome = true) :
    (alookup ((hdrScanStep depQ acc dep).1) k).isSome = true := by
  unfold hdrScanStep
  split
  · exact alookup_cons_isSome _ _ h
  · exact h

theorem hdrScan_mono (depQ : String → List String) (l : List String) :
    ∀ (acc : DepGraph × List QueryEvent) (k : String),
      (alookup acc.1 k).isSome = true →
      (alookup ((l.foldl (hdrScanStep depQ) acc).1) k).isSome = true := by
  induction l with
  | nil => intro acc k h; exact h
  | cons d rest ih =>
    intro acc k h
    rw [List.foldl_cons]
    exact ih _ k (hdrScanStep_mono depQ acc d k h)

theorem hdrScan_covers (depQ : String → List String) (l : List String) :
    ∀ (acc : DepGraph × List QueryEvent) (d : String), d ∈ l →
      isHeader d = true →
      (alookup ((l.foldl (hdrScanStep depQ) acc).1) d).isSome = true := by
  induction l with
  | nil => intro acc d hd _; exact absurd hd (by simp)
  | cons d0 rest ih =>
    intro acc d hd hh
    rw [List.foldl_cons]
    rcases List.mem_cons.mp hd with rfl | hdr
    · apply hdrScan_mono
      unfold hdrScanStep
      split
      next hcond =>
        simp [alookup]
      next hcond =>
        rw [not_and_or] at hcond
        rcases hcond with h1 | h2
        · cases hl : alookup acc.1 d with
          | none => exact absurd hl h1
          | some v => rfl
        · exact absurd hh h2
    · exact ih _ d hdr hh

theorem hdrScanStep_inv (depQ : String → List String)
    (acc : DepGraph × List QueryEvent) (dep : String)
    (h : HdrInv acc.1 acc.2) :
    HdrInv ((hdrScanStep depQ acc dep).1) ((hdrScanStep depQ acc dep).2) := by
  obtain ⟨hnd, hkeys⟩ := h
  unfold hdrScanStep
  split
  next hcond =>
    constructor
    · rw [hdrEvents_append]
      simp only [hdrEvents]
      rw [List.nodup_append]
      refine ⟨hnd, by simp, ?_⟩
      intro x hx hx'
      simp only [List.mem_singleton] at hx'
      subst hx'
      have := hkeys _ hx
      rw [hcond.1] at this
      simp at this
    · intro f hf
      rw [hdrEvents_append] at hf
      simp only [hdrEvents] at hf
      rcases List.mem_append.mp hf with hfo | hfn
      · exact alookup_cons_isSome _ _ (hkeys f hfo)
      · simp only [List.mem_singleton] at hfn
        subst hfn
        simp [alookup]
  next => exact ⟨hnd, hkeys⟩

theorem hdrScan_inv (depQ : String → List String) (l : List String) :
    ∀ acc : DepGraph × List QueryEvent, HdrInv acc.1 acc.2 →
      HdrInv ((l.foldl (hdrScanStep depQ) acc).1)
        ((l.foldl (hdrScanStep depQ) acc).2) := by
  induction l with
  | nil => intro acc h; exact h
  | cons d rest ih =>
    intro acc h
    rw [List.foldl_cons]
    exact ih _ (hdrScanStep_inv depQ acc d h)

theorem processSrc_inv (depQ : String → List String)
    (st : DepGraph × List QueryEvent) (s : String)
    (h : HdrInv st.1 st.2) :
    HdrInv ((processSrc depQ st s).1) ((processSrc depQ st s).2) := by
  simp only [processSrc]
  have h1 : HdrInv st.1 (st.2 ++ [QueryEvent.src s]) := by
    obtain ⟨hnd, hkeys⟩ := h
    constructor
    · rw [hdrEvents_append]
      simpa [hdrEvents] using hnd
    · intro f hf
      rw [hdrEvents_append] at hf
      simp only [hdrEvents] at hf
      rcases List.mem_append.mp hf with hfo | hfn
      · exact hkeys f hfo
      · exact absurd hfn (by simp)
  have h2 := hdrScan_inv depQ (depQ s) (st.1, st.2 ++ [QueryEvent.src s]) h1
  obtain ⟨hnd, hkeys⟩ := h2
  exact ⟨hnd, fun f hf => alookup_cons_isSome _ _ (hkeys f hf)⟩

theorem buildGraph_hdrInv (depQ : String → List String)
    (sources : List String) :
    HdrInv (buildGraph depQ sources).1 (buildGraph depQ sources).2 := by
  have main : ∀ (rest : List String) (acc : DepGraph × List QueryEvent),
      HdrInv acc.1 acc.2 →
      HdrInv ((rest.foldl (processSrc depQ) acc).1)
        ((rest.foldl (processSrc depQ) acc).2) := by
    intro rest
    induction rest with
    | nil => intro acc h; exact h
    | cons s rest ih =>
      intro acc h
      rw [List.foldl_cons]
      exact ih _ (processSrc_inv depQ acc s h)
  exact main sources ([], []) ⟨List.nodup_nil, fun f hf => by simp [hdrEvents] at hf⟩

theorem alookup_mem {α : Type} {g : List (String × α)} {k : String} {v : α}
    (h : alookup g k = some v) : (k, v) ∈ g := by
  induction g with
  | nil => simp [alookup] at h
  | cons kv rest ih =>
    obtain ⟨a, b⟩ := kv
    simp only [alookup] at h
    split at h
    next hak =>
      cases h
      subst hak
      exact List.mem_cons_self _ _
    next hak => exact List.mem_cons_of_mem _ (ih h)

theorem hdrScanStep_graphOK (depQ : String → List String)
    (acc : DepGraph × List QueryEvent) (dep : String)
    (h : GraphOK depQ acc.1) :
    GraphOK depQ ((hdrScanStep depQ acc dep).1) := by
  unfold hdrScanStep
  split
  · intro k v hkv
    rcases List.mem_cons.mp hkv with heq | hmem
    · cases heq
      rfl
    · exact h k v hmem
  · exact h

theorem hdrScan_graphOK (depQ : String → List String) (l : List String) :
    ∀ acc : DepGraph × List QueryEvent, GraphOK depQ acc.1 →
      GraphOK depQ ((l.foldl (hdrScanStep depQ) acc).1) := by
  induction l with
  | nil => intro acc h; exact h
  | cons d rest ih =>
    intro acc h
    rw [List.foldl_cons]
    exact ih _ (hdrScanStep_graphOK depQ acc d h)

theorem processSrc_graphOK (depQ : String → List String)
    (st : DepGraph × List QueryEvent) (s : String)
    (h : GraphOK depQ st.1) :
    GraphOK depQ ((processSrc depQ st s).1) := by
  simp only [processSrc]
  intro k v hkv
  rcases List.mem_cons.mp hkv with heq | hmem
  · cases heq
    rfl
  · exact hdrScan_graphOK depQ (depQ s) (st.1, st.2 ++ [QueryEvent.src s])
      h k v hmem

theorem buildGraph_graphOK (depQ : String → List String)
    (sources : List String) : GraphOK depQ (buildGraph depQ sources).1 := by
  have main : ∀ (rest : List String) (acc : DepGraph × List QueryEvent),
      GraphOK depQ acc.1 →
      GraphOK depQ ((rest.foldl (processSrc depQ) acc).1) := by
    intro rest
    induction rest with
    | nil => intro acc h; exact h
    | cons s rest ih =>
      intro acc h
      rw [List.foldl_cons]
      exact ih _ (processSrc_graphOK depQ acc s h)
  exact main sources ([], []) (fun k v hkv => absurd hkv (by simp))

theorem processSrc_mono (depQ : String → List String)
    (st : DepGraph × List QueryEvent) (s k : String)
    (h : (alookup st.1 k).isSome = true) :
    (alookup ((processSrc depQ st s).1) k).isSome = true := by
  simp only [processSrc]
  exact alookup_cons_isSome _ _
    (hdrScan_mono depQ (depQ s) (st.1, st.2 ++ [QueryEvent.src s]) k h)

theorem processSrc_covers (depQ : String → List String)
    (st : DepGraph × List QueryEvent) (s d : String)
    (hd : d ∈ depQ s) (hh : isHeader d = true) :
    (alookup ((processSrc depQ st s).1) d).isSome = true := by
  simp only [processSrc]
  exact alookup_cons_isSome _ _
    (hdrScan_covers depQ (depQ s) (st.1, st.2 ++ [QueryEvent.src s]) d hd hh)

theorem foldl_processSrc_mono (depQ : String → List String) (l : List String) :
    ∀ (acc : DepGraph × List QueryEvent) (k : String),
      (alookup acc.1 k).isSome = true →
      (alookup ((l.foldl (processSrc depQ) acc).1) k).isSome = true := by
  induction l with
  | nil => intro acc k h; exact h
  | cons s rest ih =>
    intro acc k h
    rw [List.foldl_cons]
    exact ih _ k (processSrc_mono depQ acc s k h)

theorem buildGraph_covers (depQ : String → List String)
    (sources : List String) (s d : String) (hs : s ∈ sources)
    (hd : d ∈ depQ s) (hh : isHeader d = true) :
    (alookup (buildGraph depQ sources).1 d).isSome = true := by
  have main : ∀ (rest : List String) (acc : DepGraph × List QueryEvent),
      s ∈ rest →
      (alookup ((rest.foldl (processSrc depQ) acc).1) d).isSome = true := by
    intro rest
    induction rest with
    | nil => intro acc hmem; exact absurd hmem (by simp)
    | cons s0 rest ih =>
      intro acc hmem
      rw [List.foldl_cons]
      rcases List.mem_cons.mp hmem with rfl | hmem'
      · exact foldl_processSrc_mono depQ rest _ d
          (processSrc_covers depQ acc s d hd hh)
      · exact ih _ hmem'
  exact main sources ([], []) hs

/-- C7 counterexample: overlapping glob patterns yield `src/a.c` twice:
the located source list is not deduplicated, and the graph builder runs
the toolchain dependency query twice for that one file. -/
theorem c7_duplicate_source_queried_twice :
    locateSources cexGlob ["src/*.c", "src/a*.c"]
      = ["src/a.c", "src/b.c", "src/a.c"] ∧
    ¬ (locateSources cexGlob ["src/*.c", "src/a*.c"]).Nodup ∧
    (srcEvents (buildGraph (fun _ => [])
      (locateSources cexGlob ["src/*.c", "src/a*.c"])).2).count "src/a.c"
      = 2 :=
  ⟨by decide, by decide, by decide⟩

/-- C7 (amended): the locator concatenates all glob expansions without
deduplication, and the graph builder then runs the dependency query
exactly once per occurrence of each source in that list — so a file
matched by several patterns is queried several times — while every
header is queried at most once (guarded by graph membership). -/
theorem c7_one_query_per_occurrence (globFn : String → List String)
    (patterns : List String) (depQ : String → List String) :
    srcEvents (buildGraph depQ (locateSources globFn patterns)).2
      = locateSources globFn patterns ∧
    (hdrEvents (buildGraph depQ (locateSources globFn patterns)).2).Nodup :=
  ⟨buildGraph_srcEvents depQ _, (buildGraph_hdrInv depQ _).1⟩

/-- C8 counterexample: `util.hh` is in `a.c`'s dependency set and not
yet a key of the graph, but — its extension being `hh` rather than `h`
or `hpp` — no dependency query is made for it and nothing is stored:
the final graph has no entry for it and the trace records no header
query, contradicting the claimed "whatever its file extension". -/
theorem c8_hh_extension_not_queried :
    "util.hh" ∈ hhDepQ "a.c" ∧
    alookup (buildGraph hhDepQ ["a.c"]).1 "util.hh" = none ∧
    hdrEvents (buildGraph hhDepQ ["a.c"]).2 = [] :=
  ⟨by decide, by decide, by decide⟩

/-- C8 (amended): every dependency whose extension is `h` or `hpp`
encountered during graph building ends up as a key of the final graph,
bound to the result of its own dependency query — so the staleness
traversal can walk those header-to-header edges; dependencies with any
other extension are skipped (see the counterexample). -/
theorem c8_h_hpp_headers_stored (depQ : String → List String)
    (sources : List String) (s d : String) (hs : s ∈ sources)
    (hd : d ∈ depQ s) (hh : isHeader d = true) :
    alookup (buildGraph depQ sources).1 d = some (depQ d) := by
  obtain ⟨v, hv⟩ := Option.isSome_iff_exists.mp
    (buildGraph_covers depQ sources s d hs hd hh)
  rw [hv, buildGraph_graphOK depQ sources d v (alookup_mem hv)]

/-- Witness for C8 (amended): with `a.c` including `u.h`, the final
graph binds `u.h` to its own (empty) dependency set. -/
theorem c8_witness :
    alookup (buildGraph hDepQ ["a.c"]).1 "u.h" = some (hDepQ "u.h") :=
  c8_h_hpp_headers_stored hDepQ ["a.c"] "a.c" "u.h"
    (by decide) (by decide) (by decide)
